import Mathlib

/-!
Verification of the candidate scoring and selection engine of the
research-digest repository (src/research_digest/ranker.py, models.py,
pipeline.py), shallowly embedded in Lean.

Numeric model: the Python code computes scores with floating-point
literals that all have at most one decimal digit; the only multiplication
performed is a study priority (one decimal digit) times the constant 4.3.
Every value that arises is therefore an exact multiple of 1/100, and
every comparison made by the code (score <= 0, top topic score >= 4 and
>= 2.2, age in whole days) is decided identically over exact rationals.
Scores are embedded as integers counting hundredths of a point: a source
literal x.y becomes the integer 100 * x.y (40.0 becomes 4000, 2.5 becomes
250, and so on).  Study priorities are tabulated in tenths and multiplied
by 43 (tenths of 4.3), which lands exactly in hundredths.

Strings: Python str.lower is embedded as a character-wise ASCII lowering,
str.strip as removal of leading and trailing whitespace, and the regular
expressions of the ranker (plain substrings, word boundaries, optional
characters, alternation, a bounded any-character gap) as a small regex
interpreter over lowercased text, with the word-character set a-z0-9_.
-/

/-- Characters stripped by Python str.strip with no argument. -/
def pyWs (c : Char) : Bool :=
  c = ' ' || c = '\t' || c = '\n' || c = '\r' || c = '\x0b' || c = '\x0c'

/-- Python str.lower, character-wise (ASCII). -/
def lowerStr (s : String) : String :=
  String.mk (s.toList.map Char.toLower)

/-- Python str.strip with no argument. -/
def stripStr (s : String) : String :=
  String.mk (((s.toList.dropWhile pyWs).reverse.dropWhile pyWs).reverse)

/-- Python substring containment over char lists: n occurs inside h. -/
def listContains (n : List Char) : List Char → Bool
  | [] => n.isEmpty
  | c :: cs => n.isPrefixOf (c :: cs) || listContains n cs

/-- Python `needle in hay` on strings. -/
def inStr (needle hay : String) : Bool :=
  listContains needle.toList hay.toList

/-- The fragment of Python regular expressions used by the ranker:
literal characters, any-character-but-newline, alternation, sequencing,
an optional piece, word boundary, and a failing pattern. -/
inductive Rx where
  | eps : Rx
  | fail : Rx
  | ch (c : Char) : Rx
  | anyc : Rx
  | alt (a b : Rx) : Rx
  | seq (a b : Rx) : Rx
  | opt (a : Rx) : Rx
  | wb : Rx
deriving DecidableEq, Repr

/-- Python regex word characters over lowercased ASCII text. -/
def wordChar (c : Char) : Bool :=
  c.isAlphanum || c = '_'

/-- Word boundary between the previous character and the rest. -/
def atBoundary (prev : Option Char) (rest : List Char) : Bool :=
  let a := match prev with | none => false | some c => wordChar c
  let b := match rest with | [] => false | c :: _ => wordChar c
  a != b

/-- All ways a pattern can consume a prefix of the input; each result is
the last consumed character paired with the remaining input. -/
def matchFrom : Rx → Option Char → List Char → List (Option Char × List Char)
  | .eps, prev, s => [(prev, s)]
  | .fail, _, _ => []
  | .ch _, _, [] => []
  | .ch c, _, (x :: xs) => if x = c then [(some x, xs)] else []
  | .anyc, _, [] => []
  | .anyc, _, (x :: xs) => if x ≠ '\n' then [(some x, xs)] else []
  | .alt a b, prev, s => matchFrom a prev s ++ matchFrom b prev s
  | .seq a b, prev, s => (matchFrom a prev s).flatMap (fun pr => matchFrom b pr.1 pr.2)
  | .opt a, prev, s => (prev, s) :: matchFrom a prev s
  | .wb, prev, s => if atBoundary prev s then [(prev, s)] else []

/-- re.search: try to match at every position of the text. -/
def searchAux (rx : Rx) : Option Char → List Char → Bool
  | prev, s =>
    !(matchFrom rx prev s).isEmpty ||
      match s with
      | [] => false
      | x :: xs => searchAux rx (some x) xs

/-- Whether the pattern matches somewhere in the string. -/
def rsearch (rx : Rx) (s : String) : Bool :=
  searchAux rx none s.toList

/-- A plain substring pattern. -/
def litRx (s : String) : Rx :=
  s.toList.foldr (fun c r => Rx.seq (Rx.ch c) r) Rx.eps

/-- Alternation of a list of patterns. -/
def altList (l : List Rx) : Rx :=
  l.foldr Rx.alt Rx.fail

/-- A whole word: backslash-b s backslash-b. -/
def wordRx (s : String) : Rx :=
  Rx.seq Rx.wb (Rx.seq (litRx s) Rx.wb)

/-- Up to n repetitions of a pattern. -/
def repUpTo (r : Rx) : Nat → Rx
  | 0 => Rx.eps
  | n + 1 => Rx.opt (Rx.seq r (repUpTo r n))

/-! ## Data model (src/research_digest/models.py) -/

/-- models.CandidatePaper.  publication_date is a day number (the code
only ever subtracts two dates and compares the difference in days).
score carries hundredths of a point. -/
structure CandidatePaper where
  title : String
  authors : String
  journal : String
  publication_date : Int
  doi : Option String := none
  abstract : String := ""
  study_type : String := "unknown"
  open_access_status : String := "UNKNOWN"
  source : String := ""
  topic_tags : List String := []
  link : Option String := none
  extra_links : List (String × Option String) :=
    [("publisher", none), ("pdf", none), ("pubmed", none), ("pmc", none)]
  peer_reviewed : Bool := true
  human_evidence : String := "UNKNOWN"
  score : Int := 0
deriving DecidableEq, Repr

/-- Python truthiness of the optional doi field: present and non-empty. -/
def doiTruthy : Option String → Bool
  | none => false
  | some d => !(d = "")

/-- models.CandidatePaper.dedupe_key. -/
def CandidatePaper.dedupeKey (p : CandidatePaper) : String :=
  if doiTruthy p.doi then stripStr (lowerStr (p.doi.getD ""))
  else lowerStr (stripStr p.title)

/-- The six-factor score breakdown (hundredths of a point). -/
structure Breakdown where
  journal : Int
  open_access : Int
  topic_match : Int
  study_kind : Int
  novelty : Int
  quality_boost : Int
deriving DecidableEq, Repr

/-- The all-zero breakdown returned on every rejection. -/
def zeroBreakdown : Breakdown := ⟨0, 0, 0, 0, 0, 0⟩

/-- models.RankedPaper. -/
structure RankedPaper where
  paper : CandidatePaper
  score_breakdown : Breakdown
deriving DecidableEq, Repr

/-- The slice of config.AppConfig read by the core (ranker and the
pipeline exclusion step). -/
structure AppConfig where
  TOPICS : List String
  JOURNAL_PRIORITIES : List (String × List String)
  OPEN_ACCESS_PRIORITY : Bool
  MAX_PAPERS_PER_WEEK : Nat
  MIN_PAPERS_PER_TOPIC : Nat
  EXCLUDE : List String
  HUMAN_STUDIES_ONLY : Bool
  TOPIC_KEYWORDS : List (String × List String)
deriving DecidableEq, Repr

/-! ## Ranker constants (src/research_digest/ranker.py) -/

/-- ranker.STUDY_PATTERNS: ordered (label, pattern list) rules. -/
def STUDY_PATTERNS : List (String × List Rx) :=
  [("systematic review",
      [litRx "systematic review", litRx "review and meta", litRx "meta-analysis"]),
   ("meta-analysis",
      [litRx "meta-analysis", litRx "meta analysis", litRx "network meta"]),
   ("randomized controlled trial",
      [litRx "randomized", litRx "randomised", litRx "double-blind",
       litRx "placebo-controlled", wordRx "rct", litRx "feeding study"]),
   ("mendelian randomization",
      [litRx "mendelian randomization", litRx "mendelian randomisation"]),
   ("cohort",
      [litRx "prospective cohort", wordRx "cohort", litRx "longitudinal"]),
   ("case-control",
      [litRx "case-control", litRx "case control"]),
   ("cross-sectional",
      [litRx "cross-sectional", litRx "cross sectional"]),
   ("animal",
      [litRx "mice", litRx "mouse", Rx.seq (litRx "rat") Rx.wb,
       litRx "animal model", litRx "murine"]),
   ("mechanistic",
      [litRx "in vitro", litRx "cell line", litRx "organoid", litRx "ex vivo",
       litRx "pathway", litRx "mechanistic"]),
   ("theory",
      [wordRx "theory", litRx "conceptual", litRx "commentary", litRx "perspective"])]

/-- ranker.STUDY_PRIORITY in tenths (4.0 is 40, 1.8 is 18); lookup with the
dictionary default STUDY_PRIORITY of "unknown". -/
def STUDY_PRIORITY (s : String) : Int :=
  if s = "systematic review" then 40
  else if s = "meta-analysis" then 40
  else if s = "randomized controlled trial" then 36
  else if s = "mendelian randomization" then 32
  else if s = "cohort" then 28
  else if s = "case-control" then 23
  else if s = "cross-sectional" then 20
  else if s = "animal" then 10
  else if s = "mechanistic" then 10
  else if s = "theory" then 12
  else 18

/-- ranker.NUTRITION_TOPICS. -/
def NUTRITION_TOPICS : List String :=
  ["weight management body composition", "cardiometabolic outcomes",
   "dietary patterns foods", "diet lifestyle longitudinal"]

/-- ranker.NUTRITION_ACCEPTABLE_DESIGNS. -/
def NUTRITION_ACCEPTABLE_DESIGNS : List String :=
  ["systematic review", "meta-analysis", "randomized controlled trial",
   "mendelian randomization", "cohort", "cross-sectional"]

/-- ranker.MECHANISTIC_NUTRITION_SIGNALS.  The pattern rats? with word
boundaries is literal "rat", an optional "s", boundaries on both sides. -/
def MECHANISTIC_NUTRITION_SIGNALS : List Rx :=
  [litRx "in vitro", litRx "cell line", litRx "organoid", litRx "ex vivo",
   litRx "mouse model", litRx "murine",
   Rx.seq Rx.wb (Rx.seq (litRx "rat") (Rx.seq (Rx.opt (Rx.ch 's')) Rx.wb)),
   litRx "primary culture"]

/-- The human-study signal alternation used by
ranker._is_purely_mechanistic_nutrition. -/
def humanSignalsRx : Rx :=
  Rx.seq Rx.wb (Rx.seq
    (altList
      [Rx.seq (litRx "participant") (Rx.opt (Rx.ch 's')),
       Rx.seq (litRx "patient") (Rx.opt (Rx.ch 's')),
       litRx "cohort", litRx "randomized", litRx "randomised", litRx "trial",
       litRx "survey", litRx "prospective", litRx "longitudinal",
       litRx "men", litRx "women",
       Rx.seq (litRx "adult") (Rx.opt (Rx.ch 's')),
       litRx "children",
       Rx.seq (litRx "adolescent") (Rx.opt (Rx.ch 's'))])
    Rx.wb)

/-- ranker.QUALITY_BOOST_PATTERNS with boosts in hundredths. -/
def QUALITY_BOOST_PATTERNS : List (Rx × Int) :=
  [(altList [litRx "preregistered", litRx "registered report",
             litRx "pre-registered"], 600),
   (altList [litRx "replication", litRx "replicated", litRx "replicat"], 500),
   (altList [litRx "multi-site", litRx "multisite", litRx "multi-centre",
             litRx "multicenter", litRx "multicentre"], 400),
   (altList [litRx "within-person", litRx "within-subject", litRx "dyadic",
             litRx "apim"], 400),
   (altList [litRx "negative control", litRx "triangulat",
             litRx "sensitivity anal"], 300),
   (altList
      [Rx.seq (litRx "substitut") (altList [litRx "ion", litRx "ing"]),
       Rx.seq (litRx "replac")
         (Rx.seq (altList [litRx "ing", litRx "ement"])
           (Rx.seq (Rx.ch ' ')
             (Rx.seq (repUpTo Rx.anyc 30)
               (altList [litRx "with", litRx "by"]))))], 400),
   (altList [Rx.seq (litRx "dose") (Rx.seq Rx.anyc (litRx "response")),
             litRx "dose response"], 200)]

/-- ranker.TIER1_HINTS. -/
def TIER1_HINTS : List String :=
  ["nature", "science", "cell", "lancet", "new england journal of medicine",
   "jama", "bmj", "proceedings of the national academy of sciences", "pnas",
   "nature human behaviour", "psychological science",
   "journal of personality and social psychology",
   "journal of experimental psychology", "evolution and human behavior"]

/-! ## Classifier, topic matcher and scorer (ranker.py) -/

/-- The lowercased "title abstract" text every classifier works on. -/
def paperText (p : CandidatePaper) : String :=
  lowerStr (p.title ++ " " ++ p.abstract)

/-- Whether any pattern of a study rule matches the paper text. -/
def ruleMatches (r : String × List Rx) (p : CandidatePaper) : Bool :=
  r.2.any (fun rx => rsearch rx (paperText p))

/-- ranker.infer_study_type: label of the first matching rule, else
"unknown". -/
def infer_study_type (p : CandidatePaper) : String :=
  match STUDY_PATTERNS.find? (fun r => ruleMatches r p) with
  | some r => r.1
  | none => "unknown"

/-- ranker._is_purely_mechanistic_nutrition. -/
def isPurelyMechanisticNutrition (p : CandidatePaper) : Bool :=
  let text := paperText p
  let hasMechanistic := MECHANISTIC_NUTRITION_SIGNALS.any (fun rx => rsearch rx text)
  if !hasMechanistic then false
  else !(rsearch humanSignalsRx text)

/-- ranker._quality_boost (hundredths of a point). -/
def qualityBoost (p : CandidatePaper) : Int :=
  QUALITY_BOOST_PATTERNS.foldl
    (fun total pb => if rsearch pb.1 (paperText p) then total + pb.2 else total) 0

/-- config.JOURNAL_PRIORITIES.get(k, []). -/
def tierList (cfg : AppConfig) (k : String) : List String :=
  ((cfg.JOURNAL_PRIORITIES.find? (fun e => e.1 == k)).map (fun e => e.2)).getD []

/-- ranker.classify_journal_tier. -/
def classify_journal_tier (journal : String) (cfg : AppConfig) : Nat :=
  let text := lowerStr journal
  if TIER1_HINTS.any (fun h => inStr h text) then 1
  else if (tierList cfg "tier1").any (fun v => inStr (lowerStr v) text) then 1
  else if (tierList cfg "tier2").any (fun v => inStr (lowerStr v) text) then 2
  else if (tierList cfg "tier3").any (fun v => inStr (lowerStr v) text) then 3
  else 3

/-- config.TOPIC_KEYWORDS.get(key) or [key]: the Python `or` also replaces
an empty configured list by the fallback. -/
def effectiveKeywords (cfg : AppConfig) (key : String) : List String :=
  match (cfg.TOPIC_KEYWORDS.find? (fun e => e.1 == key)).map (fun e => e.2) with
  | none => [key]
  | some [] => [key]
  | some kws => kws

/-- The per-topic accumulation inside ranker.match_topics: each keyword is
stripped and lowercased, empty keywords are skipped, a keyword occurrence
adds 100 (250 when the keyword equals the lowercased topic), and a final
150 is added when the lowercased topic occurs in the text. -/
def topicScore (p : CandidatePaper) (cfg : AppConfig) (topic : String) : Int :=
  let text := paperText p
  let key := lowerStr topic
  let base := (effectiveKeywords cfg key).foldl
    (fun s kw0 =>
      let kw := lowerStr (stripStr kw0)
      if kw = "" then s
      else if inStr kw text then s + (if kw = key then 250 else 100)
      else s) 0
  if inStr (lowerStr topic) text then base + 150 else base

/-- Insert or overwrite a key in an insertion-ordered dictionary, as a
Python dict assignment does. -/
def dictInsert (k : String) (v : Int) : List (String × Int) → List (String × Int)
  | [] => [(k, v)]
  | e :: rest => if e.1 = k then (k, v) :: rest else e :: dictInsert k v rest

/-- Dictionary lookup. -/
def dictLookup (k : String) (d : List (String × Int)) : Option Int :=
  (d.find? (fun e => e.1 == k)).map (fun e => e.2)

/-- ranker.match_topics: an insertion-ordered mapping holding each
configured topic whose accumulated score is positive. -/
def match_topics (p : CandidatePaper) (cfg : AppConfig) : List (String × Int) :=
  cfg.TOPICS.foldl
    (fun d topic =>
      let score := topicScore p cfg topic
      if score > 0 then dictInsert topic score d else d) []

/-- ranker._is_nutrition_paper. -/
def isNutritionPaper (topicScores : List (String × Int)) : Bool :=
  topicScores.any (fun t => NUTRITION_TOPICS.contains t.1)

/-- max over the values of a non-empty mapping (0 when empty; the scorer
only calls it on non-empty mappings). -/
def maxValues : List (String × Int) → Int
  | [] => 0
  | e :: rest => rest.foldl (fun m x => max m x.2) e.2

/-- The scoring body of ranker.score_candidate, applied to the paper
after its study_type has been stored (the Python code mutates
paper.study_type first and reads it below). -/
def scoreAux (p : CandidatePaper) (cfg : AppConfig) (now : Int) : Int × Breakdown :=
  let topicScores := match_topics p cfg
  if topicScores.isEmpty then (0, zeroBreakdown)
  else if isNutritionPaper topicScores && isPurelyMechanisticNutrition p then
    (0, zeroBreakdown)
  else if isNutritionPaper topicScores &&
      !(NUTRITION_ACCEPTABLE_DESIGNS.contains p.study_type) &&
      !(p.study_type = "unknown") then
    (0, zeroBreakdown)
  else
    let tier := classify_journal_tier p.journal cfg
    let journal_component : Int := if tier = 1 then 4000 else if tier = 2 then 2600 else 1400
    let oa_component : Int :=
      if p.open_access_status = "OPEN_ACCESS" then
        (if cfg.OPEN_ACCESS_PRIORITY then 1800 else 1000)
      else if p.open_access_status = "PAYWALLED" then
        (if cfg.OPEN_ACCESS_PRIORITY then -300 else 0)
      else 400
    let top_topic_score := maxValues topicScores
    let topic_component : Int :=
      if top_topic_score ≥ 400 then 2800
      else if top_topic_score ≥ 220 then 1900
      else 1000
    let study_component : Int := STUDY_PRIORITY p.study_type * 43
    let age_days : Int := now - p.publication_date
    let novelty_component : Int := if age_days ≤ 1 then 800 else if age_days ≤ 3 then 600 else 400
    let quality := qualityBoost p
    let total := journal_component + oa_component + topic_component +
      study_component + novelty_component + quality
    (total, ⟨journal_component, oa_component, topic_component,
      study_component, novelty_component, quality⟩)

/-- ranker.score_candidate: stores the inferred study_type on the paper
(the in-place mutation made explicit) and computes the score and its
breakdown. -/
def score_candidate (p : CandidatePaper) (cfg : AppConfig) (now : Int) :
    CandidatePaper × Int × Breakdown :=
  let p1 := { p with study_type := infer_study_type p }
  (p1, (scoreAux p1 cfg now).1, (scoreAux p1 cfg now).2)

/-! ## Selector (ranker.select_papers) -/

/-- Stable insertion of one element into a list sorted descending by key:
the element goes in front of the first entry whose key is not larger. -/
def insertDesc {α : Type} (key : α → Int) (x : α) : List α → List α
  | [] => [x]
  | y :: ys => if key y ≤ key x then x :: y :: ys else y :: insertDesc key x ys

/-- Stable descending sort by a key, as Python sorted(reverse=True). -/
def sortByDesc {α : Type} (key : α → Int) : List α → List α
  | [] => []
  | x :: xs => insertDesc key x (sortByDesc key xs)

/-- topic_tags assignment: the matched topics sorted descending by their
match score (a stable sort of the insertion-ordered mapping). -/
def sortTags (mt : List (String × Int)) : List String :=
  (sortByDesc (fun e => e.2) mt).map (fun e => e.1)

/-- The net effect of the scoring pass on one candidate that passed the
pre-filter: study_type is always stored; topic_tags and score are stored
only when the score is positive.  Returns the updated paper together with
its score and breakdown. -/
def processPaper (p : CandidatePaper) (cfg : AppConfig) (now : Int) :
    CandidatePaper × Int × Breakdown :=
  let p1 := { p with study_type := infer_study_type p }
  let s := (scoreAux p1 cfg now).1
  let b := (scoreAux p1 cfg now).2
  if s ≤ 0 then (p1, s, b)
  else ({ p1 with topic_tags := sortTags (match_topics p1 cfg), score := s }, s, b)

/-- The pre-filter of select_papers: drop when a truthy doi lowercases
into seen_doi, when an absent doi leaves a lowercased-stripped title in
seen_titles, or when the paper is not peer reviewed. -/
def prefilteredOut (p : CandidatePaper) (seen_doi seen_titles : List String) : Bool :=
  (doiTruthy p.doi && seen_doi.contains (lowerStr (p.doi.getD ""))) ||
  (!doiTruthy p.doi && seen_titles.contains (stripStr (lowerStr p.title))) ||
  !p.peer_reviewed

/-- The scoring pass of select_papers: surviving candidates with their
derived fields written, sorted descending by total score. -/
def rankedOf (candidates : List CandidatePaper) (cfg : AppConfig)
    (seen_doi seen_titles : List String) (now : Int) : List RankedPaper :=
  sortByDesc (fun r => r.paper.score)
    (candidates.filterMap (fun p =>
      if prefilteredOut p seen_doi seen_titles then none
      else
        let q := (processPaper p cfg now).1
        let s := (processPaper p cfg now).2.1
        let b := (processPaper p cfg now).2.2
        if s ≤ 0 then none else some ⟨q, b⟩))

/-- The net effect of select_papers on one input candidate: pre-filtered
candidates are untouched, others receive the scoring-pass writes. -/
def netEffect (p : CandidatePaper) (cfg : AppConfig)
    (seen_doi seen_titles : List String) (now : Int) : CandidatePaper :=
  if prefilteredOut p seen_doi seen_titles then p else (processPaper p cfg now).1

/-- The mutable accumulator of the two selection passes. -/
structure SelState where
  selected : List RankedPaper
  keys : List String
deriving DecidableEq, Repr

/-- ranker.select_papers._try_add. -/
def tryAdd (cfg : AppConfig) (st : SelState) (c : RankedPaper) : SelState × Bool :=
  let key := c.paper.dedupeKey
  if st.keys.contains key then (st, false)
  else if cfg.MAX_PAPERS_PER_WEEK ≤ st.selected.length then (st, false)
  else (⟨st.selected ++ [c], st.keys ++ [key]⟩, true)

/-- The inner loop of the first pass: add candidates until one addition
fails (the break in the source). -/
def addUpTo (cfg : AppConfig) : SelState → List RankedPaper → SelState
  | st, [] => st
  | st, c :: cs =>
    let r := tryAdd cfg st c
    if r.2 then addUpTo cfg r.1 cs else r.1

/-- One topic of the first (fairness) pass: filter the not-yet-selected
candidates tagged with the topic and add up to MIN_PAPERS_PER_TOPIC. -/
def phase1Step (cfg : AppConfig) (ranked : List RankedPaper)
    (st : SelState) (topic : String) : SelState :=
  let topic_matches := ranked.filter (fun c =>
    c.paper.topic_tags.contains topic && !st.keys.contains c.paper.dedupeKey)
  addUpTo cfg st (topic_matches.take cfg.MIN_PAPERS_PER_TOPIC)

/-- The first pass over the configured topics in order. -/
def phase1 (cfg : AppConfig) (ranked : List RankedPaper)
    (st : SelState) (topics : List String) : SelState :=
  topics.foldl (phase1Step cfg ranked) st

/-- The second (fill) pass over the score-sorted list. -/
def phase2 (cfg : AppConfig) (st : SelState) (ranked : List RankedPaper) : SelState :=
  ranked.foldl
    (fun st c =>
      if cfg.MAX_PAPERS_PER_WEEK ≤ st.selected.length then st
      else (tryAdd cfg st c).1) st

/-- ranker.select_papers. -/
def select_papers (candidates : List CandidatePaper) (cfg : AppConfig)
    (seen_doi seen_titles : List String) (now : Int) : List RankedPaper :=
  let ranked := rankedOf candidates cfg seen_doi seen_titles now
  let st1 := phase1 cfg ranked ⟨[], []⟩ cfg.TOPICS
  let st2 := phase2 cfg st1 ranked
  sortByDesc (fun r => r.paper.score) st2.selected

/-! ## Pipeline exclusion step (src/research_digest/pipeline.py) -/

/-- pipeline.DigestPipeline._passes_exclusions. -/
def passesExclusions (cfg : AppConfig) (p : CandidatePaper) : Bool :=
  let excludes := cfg.EXCLUDE.map (fun i => stripStr (lowerStr i))
  let text := lowerStr (p.title ++ " " ++ p.journal ++ " " ++ p.abstract)
  if excludes.contains "non-peer reviewed" && !p.peer_reviewed then false
  else if excludes.contains "preprints only" &&
      ["preprint", "biorxiv", "medrxiv", "arxiv", "research square"].any
        (fun h => inStr h text) then false
  else if excludes.contains "conference abstracts" &&
      ["conference", "congress", "meeting abstract", "abstract only"].any
        (fun h => inStr h text) then false
  else if cfg.HUMAN_STUDIES_ONLY && !(p.human_evidence = "HUMAN") then false
  else true

/-! ## Specification-side definitions (for refinement claims) -/

/-- Modelled from the spec wording of the topic matcher taken literally:
keywords are matched verbatim (no stripping or lowercasing of the
configured keyword), 250 exactly when the keyword equals the topic's own
label, and 150 more when the topic label itself appears in the text. -/
def topicScoreLiteral (p : CandidatePaper) (cfg : AppConfig) (topic : String) : Int :=
  let text := paperText p
  ((effectiveKeywords cfg (lowerStr topic)).map
    (fun kw => if inStr kw text then (if kw = topic then 250 else 100) else 0)).sum
  + (if inStr topic text then 150 else 0)

/-- The amended per-topic formula: like the literal one but each keyword
is first stripped and lowercased (empty keywords dropped) and the label
comparisons use the lowercased topic. -/
def topicScoreSpec (p : CandidatePaper) (cfg : AppConfig) (topic : String) : Int :=
  ((effectiveKeywords cfg (lowerStr topic)).map
    (fun kw0 =>
      if lowerStr (stripStr kw0) = "" then 0
      else if inStr (lowerStr (stripStr kw0)) (paperText p) then
        (if lowerStr (stripStr kw0) = lowerStr topic then 250 else 100)
      else 0)).sum
  + (if inStr (lowerStr topic) (paperText p) then 150 else 0)

/-! ## Helper definitions for the theorems -/

/-- Overwrite the human_evidence field. -/
def heSet (p : CandidatePaper) (h : String) : CandidatePaper :=
  { p with human_evidence := h }

/-- Overwrite the human_evidence field inside a ranked paper. -/
def heSetR (r : RankedPaper) (h : String) : RankedPaper :=
  ⟨heSet r.paper h, r.score_breakdown⟩

/-- Overwrite the human_evidence field across a selection state. -/
def heSetSt (st : SelState) (h : String) : SelState :=
  ⟨st.selected.map (fun r => heSetR r h), st.keys⟩

/-- Whether a ranked paper is tagged with a topic. -/
def taggedWith (t : String) (r : RankedPaper) : Bool :=
  r.paper.topic_tags.contains t

/-- The invariant maintained by both selection passes: the key set
mirrors the selected list, the cap holds, everything selected comes from
the ranked list, and selected dedupe keys are pairwise distinct. -/
def GoodState (cfg : AppConfig) (ranked : List RankedPaper) (st : SelState) : Prop :=
  st.keys = st.selected.map (fun r => r.paper.dedupeKey) ∧
  st.selected.length ≤ cfg.MAX_PAPERS_PER_WEEK ∧
  (∀ r ∈ st.selected, r ∈ ranked) ∧
  st.selected.Pairwise (fun a b => a.paper.dedupeKey ≠ b.paper.dedupeKey)

/-! ## Concrete instances used by witnesses and counterexamples -/

/-- A one-topic configuration with empty journal tier lists. -/
def cfgA : AppConfig :=
  { TOPICS := ["personality psychology"],
    JOURNAL_PRIORITIES := [("tier1", []), ("tier2", []), ("tier3", [])],
    OPEN_ACCESS_PRIORITY := true,
    MAX_PAPERS_PER_WEEK := 14,
    MIN_PAPERS_PER_TOPIC := 1,
    EXCLUDE := ["conference abstracts", "non-peer reviewed"],
    HUMAN_STUDIES_ONLY := true,
    TOPIC_KEYWORDS := [("personality psychology", ["big five", "personality trait"])] }

/-- A matching candidate whose doi carries a trailing blank. -/
def paperA : CandidatePaper :=
  { title := "Big five personality trait stability",
    authors := "A",
    journal := "Journal X",
    publication_date := 0,
    doi := some "10.1/X " }

/-- cfgA with a per-topic minimum of two. -/
def cfgB : AppConfig := { cfgA with MIN_PAPERS_PER_TOPIC := 2 }

/-- paperA without a doi (dedupe key falls back to the title). -/
def paperB : CandidatePaper := { paperA with doi := none }

/-- A candidate matching no configured topic of cfgA. -/
def paperC : CandidatePaper :=
  { title := "Quantum gravity phenomenology",
    authors := "C",
    journal := "Journal X",
    publication_date := 0 }

/-- A configuration whose single topic belongs to the nutrition group. -/
def cfgN : AppConfig :=
  { cfgA with
    TOPICS := ["cardiometabolic outcomes"],
    TOPIC_KEYWORDS := [("cardiometabolic outcomes", ["cardiometabolic"])] }

/-- A purely mechanistic nutrition candidate in a tier-one journal. -/
def paperN : CandidatePaper :=
  { title := "Cardiometabolic effects in vitro",
    authors := "N",
    journal := "Nature",
    publication_date := 0,
    open_access_status := "OPEN_ACCESS" }

/-- A configuration whose keyword list has an uppercase keyword. -/
def cfgX : AppConfig :=
  { cfgA with TOPICS := ["t"], TOPIC_KEYWORDS := [("t", ["X"])] }

/-- A candidate whose text contains the lowercased keyword only. -/
def paperX : CandidatePaper :=
  { title := "x", authors := "X", journal := "J", publication_date := 0 }

/-- A candidate matched by the third study rule and none before it. -/
def paperR : CandidatePaper :=
  { title := "A randomized trial of sleep",
    authors := "R", journal := "J", publication_date := 0 }

/-- A candidate matched by no study rule. -/
def paperZ : CandidatePaper :=
  { title := "zzz qqq", authors := "Z", journal := "J", publication_date := 0 }

/-- paperA flagged as not peer reviewed (pre-filtered out). -/
def paperNP : CandidatePaper := { paperA with peer_reviewed := false }

/-- The ranked entry select_papers produces from paperA under cfgA. -/
def rankedA : RankedPaper :=
  ⟨{ paperA with
      study_type := "unknown",
      topic_tags := ["personality psychology"],
      score := 4374 },
   ⟨1400, 400, 1000, 774, 800, 0⟩⟩

/-! ## Sorting lemmas -/

theorem insertDesc_perm {α : Type} (key : α → Int) (x : α) (l : List α) :
    List.Perm (insertDesc key x l) (x :: l) := by
  induction l with
  | nil => simp [insertDesc]
  | cons y ys ih =>
    by_cases h : key y ≤ key x
    · simp [insertDesc, h]
    · simp only [insertDesc, if_neg h]
      exact (ih.cons y).trans (List.Perm.swap x y ys)

theorem sortByDesc_perm {α : Type} (key : α → Int) (l : List α) :
    List.Perm (sortByDesc key l) l := by
  induction l with
  | nil => exact List.Perm.refl _
  | cons x xs ih =>
    exact (insertDesc_perm key x (sortByDesc key xs)).trans (ih.cons x)

/-! ## Frame lemmas for the scoring pass -/

theorem processPaper_frame (p : CandidatePaper) (cfg : AppConfig) (now : Int) :
    (processPaper p cfg now).1.title = p.title ∧
    (processPaper p cfg now).1.authors = p.authors ∧
    (processPaper p cfg now).1.journal = p.journal ∧
    (processPaper p cfg now).1.publication_date = p.publication_date ∧
    (processPaper p cfg now).1.doi = p.doi ∧
    (processPaper p cfg now).1.abstract = p.abstract ∧
    (processPaper p cfg now).1.source = p.source ∧
    (processPaper p cfg now).1.open_access_status = p.open_access_status ∧
    (processPaper p cfg now).1.link = p.link ∧
    (processPaper p cfg now).1.extra_links = p.extra_links ∧
    (processPaper p cfg now).1.peer_reviewed = p.peer_reviewed ∧
    (processPaper p cfg now).1.human_evidence = p.human_evidence := by
  simp only [processPaper]
  split <;>
    exact ⟨rfl, rfl, rfl, rfl, rfl, rfl, rfl, rfl, rfl, rfl, rfl, rfl⟩

theorem dedupeKey_congr (p q : CandidatePaper) (hd : q.doi = p.doi)
    (ht : q.title = p.title) : q.dedupeKey = p.dedupeKey := by
  simp [CandidatePaper.dedupeKey, hd, ht]

theorem processPaper_dedupeKey (p : CandidatePaper) (cfg : AppConfig) (now : Int) :
    (processPaper p cfg now).1.dedupeKey = p.dedupeKey :=
  dedupeKey_congr p _ (processPaper_frame p cfg now).2.2.2.2.1
    (processPaper_frame p cfg now).1

/-! ## Membership in the scoring pass -/

theorem mem_rankedOf {r : RankedPaper} {candidates : List CandidatePaper}
    {cfg : AppConfig} {sd st : List String} {now : Int} :
    r ∈ rankedOf candidates cfg sd st now ↔
    ∃ p, p ∈ candidates ∧ prefilteredOut p sd st = false ∧
      ¬((processPaper p cfg now).2.1 ≤ 0) ∧
      r = ⟨(processPaper p cfg now).1, (processPaper p cfg now).2.2⟩ := by
  unfold rankedOf
  constructor
  · intro h
    have h2 := (List.Perm.mem_iff (sortByDesc_perm (fun x : RankedPaper => x.paper.score) _)).1 h
    rw [List.mem_filterMap] at h2
    obtain ⟨p, hp, hf⟩ := h2
    dsimp only at hf
    refine ⟨p, hp, ?_⟩
    cases hpre : prefilteredOut p sd st with
    | true => rw [hpre] at hf; simp at hf
    | false =>
      rw [hpre] at hf
      by_cases hs : (processPaper p cfg now).2.1 ≤ 0
      · simp [hs] at hf
      · simp only [if_neg hs] at hf
        simp only [Bool.false_eq_true, if_false, Option.some.injEq] at hf
        exact ⟨rfl, hs, hf.symm⟩
  · rintro ⟨p, hp, h1, h2, rfl⟩
    apply (List.Perm.mem_iff (sortByDesc_perm (fun x : RankedPaper => x.paper.score) _)).2
    rw [List.mem_filterMap]
    refine ⟨p, hp, ?_⟩
    dsimp only
    rw [h1]
    simp [h2]

/-! ## Selection-state invariants -/

theorem tryAdd_eq (cfg : AppConfig) (st : SelState) (c : RankedPaper) :
    (tryAdd cfg st c = (st, false) ∧
      (st.keys.contains c.paper.dedupeKey = true ∨
        cfg.MAX_PAPERS_PER_WEEK ≤ st.selected.length)) ∨
    (tryAdd cfg st c =
        (⟨st.selected ++ [c], st.keys ++ [c.paper.dedupeKey]⟩, true) ∧
      st.keys.contains c.paper.dedupeKey = false ∧
      st.selected.length < cfg.MAX_PAPERS_PER_WEEK) := by
  unfold tryAdd
  by_cases h1 : c.paper.dedupeKey ∈ st.keys
  · exact Or.inl ⟨by simp [h1], Or.inl (by simpa using h1)⟩
  · by_cases h2 : cfg.MAX_PAPERS_PER_WEEK ≤ st.selected.length
    · exact Or.inl ⟨by simp [h1, h2], Or.inr h2⟩
    · refine Or.inr ⟨by simp [h1, h2], by simpa using h1, by omega⟩

theorem tryAdd_good {cfg : AppConfig} {ranked : List RankedPaper}
    {st : SelState} {c : RankedPaper} (hc : c ∈ ranked)
    (h : GoodState cfg ranked st) : GoodState cfg ranked (tryAdd cfg st c).1 := by
  obtain ⟨hk, hlen, hmem, hpw⟩ := h
  rcases tryAdd_eq cfg st c with ⟨he, _⟩ | ⟨he, hnk, hcap⟩
  · rw [he]; exact ⟨hk, hlen, hmem, hpw⟩
  · rw [he]
    refine ⟨?_, ?_, ?_, ?_⟩
    · simp [hk]
    · simp only [List.length_append, List.length_cons, List.length_nil]
      omega
    · intro r hr
      rcases List.mem_append.1 hr with h | h
      · exact hmem r h
      · rw [List.mem_singleton.1 h]; exact hc
    · rw [List.pairwise_append]
      refine ⟨hpw, List.pairwise_singleton _ _, ?_⟩
      intro a ha b hb
      rw [List.mem_singleton.1 hb]
      intro heq
      have : st.keys.contains c.paper.dedupeKey = true := by
        rw [hk, List.contains_iff_exists_mem_beq]
        exact ⟨a.paper.dedupeKey, List.mem_map_of_mem _ ha, by simp [heq]⟩
      rw [this] at hnk
      cases hnk

theorem addUpTo_good {cfg : AppConfig} {ranked : List RankedPaper} :
    ∀ (l : List RankedPaper) (st : SelState), (∀ c ∈ l, c ∈ ranked) →
    GoodState cfg ranked st → GoodState cfg ranked (addUpTo cfg st l)
  | [], _, _, h => h
  | c :: cs, st, hl, h => by
    unfold addUpTo
    have hgood := tryAdd_good (hl c (List.mem_cons_self c cs)) h
    by_cases hb : (tryAdd cfg st c).2
    · simp only [hb, if_true]
      exact addUpTo_good cs _ (fun x hx => hl x (List.mem_cons_of_mem c hx)) hgood
    · simp only [hb, if_false, Bool.false_eq_true]
      exact hgood

theorem phase1Step_good {cfg : AppConfig} {ranked : List RankedPaper}
    {st : SelState} {topic : String} (h : GoodState cfg ranked st) :
    GoodState cfg ranked (phase1Step cfg ranked st topic) := by
  unfold phase1Step
  apply addUpTo_good _ _ _ h
  intro c hc
  exact List.filter_subset' _ ((List.take_sublist _ _).subset hc)

theorem phase1_good {cfg : AppConfig} {ranked : List RankedPaper}
    {st : SelState} {topics : List String} (h : GoodState cfg ranked st) :
    GoodState cfg ranked (phase1 cfg ranked st topics) := by
  unfold phase1
  induction topics generalizing st with
  | nil => exact h
  | cons t ts ih => exact ih (phase1Step_good h)

theorem phase2_good {cfg : AppConfig} {ranked : List RankedPaper}
    {st : SelState} (h : GoodState cfg ranked st) :
    GoodState cfg ranked (phase2 cfg st ranked) := by
  unfold phase2
  have main : ∀ (l : List RankedPaper) (st : SelState), (∀ c ∈ l, c ∈ ranked) →
      GoodState cfg ranked st →
      GoodState cfg ranked (l.foldl
        (fun st c => if cfg.MAX_PAPERS_PER_WEEK ≤ st.selected.length then st
          else (tryAdd cfg st c).1) st) := by
    intro l
    induction l with
    | nil => intro st _ h; exact h
    | cons c cs ih =>
      intro st hl h
      simp only [List.foldl_cons]
      apply ih _ (fun x hx => hl x (List.mem_cons_of_mem c hx))
      by_cases hc : cfg.MAX_PAPERS_PER_WEEK ≤ st.selected.length
      · simpa [hc] using h
      · simpa [hc] using tryAdd_good (hl c (List.mem_cons_self c cs)) h
  exact main ranked st (fun _ hx => hx) h

theorem initState_good {cfg : AppConfig} {ranked : List RankedPaper} :
    GoodState cfg ranked ⟨[], []⟩ := by
  refine ⟨rfl, ?_, ?_, List.Pairwise.nil⟩
  · simp
  · intro r hr; cases hr

theorem select_papers_good (candidates : List CandidatePaper) (cfg : AppConfig)
    (sd st : List String) (now : Int) :
    GoodState cfg (rankedOf candidates cfg sd st now)
      (phase2 cfg
        (phase1 cfg (rankedOf candidates cfg sd st now) ⟨[], []⟩ cfg.TOPICS)
        (rankedOf candidates cfg sd st now)) :=
  phase2_good (phase1_good initState_good)

/-! ## Claim theorems -/

/-- C1: for every list of candidates, every configuration, and every
seen-history input, the list returned by select_papers contains at most
MAX_PAPERS_PER_WEEK entries. -/
theorem C1_selection_cap (candidates : List CandidatePaper) (cfg : AppConfig)
    (sd st : List String) (now : Int) :
    (select_papers candidates cfg sd st now).length ≤ cfg.MAX_PAPERS_PER_WEEK := by
  unfold select_papers
  rw [List.Perm.length_eq (sortByDesc_perm _ _)]
  exact (select_papers_good candidates cfg sd st now).2.1

/-- C4: the dedupe key is a pure function of (doi, title); candidates
with equal truthy normalized dois, or with absent dois and equal
normalized titles, get equal keys; and the output of select_papers never
holds two entries with the same dedupe key. -/
theorem C4_dedupe_key (p q : CandidatePaper) (candidates : List CandidatePaper)
    (cfg : AppConfig) (sd st : List String) (now : Int) :
    (p.doi = q.doi → p.title = q.title → p.dedupeKey = q.dedupeKey) ∧
    (doiTruthy p.doi = true → doiTruthy q.doi = true →
      stripStr (lowerStr (p.doi.getD "")) = stripStr (lowerStr (q.doi.getD "")) →
      p.dedupeKey = q.dedupeKey) ∧
    (doiTruthy p.doi = false → doiTruthy q.doi = false →
      lowerStr (stripStr p.title) = lowerStr (stripStr q.title) →
      p.dedupeKey = q.dedupeKey) ∧
    (select_papers candidates cfg sd st now).Pairwise
      (fun a b => a.paper.dedupeKey ≠ b.paper.dedupeKey) := by
  refine ⟨?_, ?_, ?_, ?_⟩
  · intro hd ht
    simp [CandidatePaper.dedupeKey, hd, ht]
  · intro h1 h2 hk
    simp [CandidatePaper.dedupeKey, h1, h2, hk]
  · intro h1 h2 ht
    simp [CandidatePaper.dedupeKey, h1, h2, ht]
  · unfold select_papers
    have hsym : ∀ {x y : RankedPaper},
        x.paper.dedupeKey ≠ y.paper.dedupeKey →
        y.paper.dedupeKey ≠ x.paper.dedupeKey := fun h he => h he.symm
    exact (List.Perm.pairwise_iff hsym (sortByDesc_perm _ _)).2
      (select_papers_good candidates cfg sd st now).2.2.2

/-- C4 witness: the key-equality implications applied at concrete
candidates, and key distinctness of a concrete selection. -/
theorem C4_dedupe_key_witness :
    paperA.dedupeKey = paperA.dedupeKey ∧
    (select_papers [paperB, paperB] cfgB [] [] 0).Pairwise
      (fun a b => a.paper.dedupeKey ≠ b.paper.dedupeKey) :=
  ⟨(C4_dedupe_key paperA paperA [] cfgA [] [] 0).1 rfl rfl,
   (C4_dedupe_key paperA paperA [paperB, paperB] cfgB [] [] 0).2.2.2⟩

/-- C2 (amended): every entry of select_papers has, when its doi is
truthy, a lowercased doi outside seen_doi, and otherwise a
lowercased-stripped title outside seen_titles.  (The pre-filter compares
the lowercased doi without stripping, not the dedupe key.) -/
theorem C2_seen_history_excluded (candidates : List CandidatePaper)
    (cfg : AppConfig) (sd st : List String) (now : Int) (r : RankedPaper)
    (hr : r ∈ select_papers candidates cfg sd st now) :
    (doiTruthy r.paper.doi = true →
      sd.contains (lowerStr (r.paper.doi.getD "")) = false) ∧
    (doiTruthy r.paper.doi = false →
      st.contains (stripStr (lowerStr r.paper.title)) = false) := by
  unfold select_papers at hr
  have hsel := (List.Perm.mem_iff (sortByDesc_perm _ _)).1 hr
  have hranked := (select_papers_good candidates cfg sd st now).2.2.1 r hsel
  obtain ⟨p, _, hpre, _, rfl⟩ := mem_rankedOf.1 hranked
  have hdoi : (processPaper p cfg now).1.doi = p.doi :=
    (processPaper_frame p cfg now).2.2.2.2.1
  have htitle : (processPaper p cfg now).1.title = p.title :=
    (processPaper_frame p cfg now).1
  unfold prefilteredOut at hpre
  rw [Bool.or_eq_false_iff, Bool.or_eq_false_iff] at hpre
  obtain ⟨⟨hpre1, hpre2⟩, _⟩ := hpre
  constructor
  · intro ht
    rw [hdoi] at ht ⊢
    rwa [ht, Bool.true_and] at hpre1
  · intro ht
    rw [hdoi] at ht
    rw [htitle]
    rw [ht] at hpre2
    simpa using hpre2

/-- C2 counterexample: paperA's dedupe key "10.1/x" is in seen_doi (its
doi has a trailing blank, which the dedupe key strips but the pre-filter
comparison keeps), yet the candidate is returned by select_papers. -/
theorem C2_counterexample :
    (select_papers [paperA] cfgA ["10.1/x"] [] 0).map
        (fun r => r.paper.dedupeKey) = ["10.1/x"] ∧
    (select_papers [paperA] cfgA ["10.1/x"] [] 0).map
        (fun r => r.paper.doi) = [some "10.1/X "] ∧
    paperA.dedupeKey = "10.1/x" ∧
    "10.1/x" ∈ (["10.1/x"] : List String) := by decide

/-- C2 witness: the amended theorem applied at a concrete selection. -/
theorem C2_seen_history_excluded_witness :
    (doiTruthy rankedA.paper.doi = true →
      ([] : List String).contains (lowerStr (rankedA.paper.doi.getD "")) = false) ∧
    (doiTruthy rankedA.paper.doi = false →
      ([] : List String).contains (stripStr (lowerStr rankedA.paper.title)) = false) :=
  C2_seen_history_excluded [paperA] cfgA [] [] 0 rankedA (by decide)

theorem match_topics_set_study (p : CandidatePaper) (cfg : AppConfig) (x : String) :
    match_topics { p with study_type := x } cfg = match_topics p cfg := rfl

theorem ipmn_set_study (p : CandidatePaper) (x : String) :
    isPurelyMechanisticNutrition { p with study_type := x } =
    isPurelyMechanisticNutrition p := rfl

/-- C5: a candidate matching no configured topic scores 0 with an
all-zero breakdown. -/
theorem C5_no_topic_zero_score (p : CandidatePaper) (cfg : AppConfig) (now : Int)
    (h : match_topics p cfg = []) :
    (score_candidate p cfg now).2.1 = 0 ∧
    (score_candidate p cfg now).2.2 = zeroBreakdown := by
  have hm : match_topics { p with study_type := infer_study_type p } cfg = [] := by
    rw [match_topics_set_study]; exact h
  unfold score_candidate scoreAux
  dsimp only
  rw [hm]
  exact ⟨rfl, rfl⟩

/-- C5 witness: paperC matches no topic of cfgA and scores 0. -/
theorem C5_no_topic_zero_score_witness :
    (score_candidate paperC cfgA 0).2.1 = 0 ∧
    (score_candidate paperC cfgA 0).2.2 = zeroBreakdown :=
  C5_no_topic_zero_score paperC cfgA 0 (by decide)

/-- C6: a candidate matching a nutrition-group topic whose text carries a
mechanistic signal and no human-study signal scores 0 with an all-zero
breakdown, whatever its journal and other merits. -/
theorem C6_mechanistic_nutrition_zero (p : CandidatePaper) (cfg : AppConfig)
    (now : Int)
    (h1 : isNutritionPaper (match_topics p cfg) = true)
    (h2 : MECHANISTIC_NUTRITION_SIGNALS.any
      (fun rx => rsearch rx (paperText p)) = true)
    (h3 : rsearch humanSignalsRx (paperText p) = false) :
    (score_candidate p cfg now).2.1 = 0 ∧
    (score_candidate p cfg now).2.2 = zeroBreakdown := by
  have hpm : isPurelyMechanisticNutrition p = true := by
    simp only [isPurelyMechanisticNutrition]
    rw [h2, h3]
    rfl
  have hne : (match_topics p cfg).isEmpty = false := by
    cases hmt : match_topics p cfg with
    | nil => rw [hmt] at h1; cases h1
    | cons a l => rfl
  have hm : match_topics { p with study_type := infer_study_type p } cfg =
      match_topics p cfg := match_topics_set_study p cfg _
  unfold score_candidate scoreAux
  dsimp only
  rw [hm, hne, ipmn_set_study, h1, hpm]
  exact ⟨rfl, rfl⟩

/-- C6 witness: paperN (nutrition topic, "in vitro", no human signal,
tier-one journal, open access) scores 0. -/
theorem C6_mechanistic_nutrition_zero_witness :
    (score_candidate paperN cfgN 0).2.1 = 0 ∧
    (score_candidate paperN cfgN 0).2.2 = zeroBreakdown :=
  C6_mechanistic_nutrition_zero paperN cfgN 0 (by decide) (by decide) (by decide)

theorem find?_first {α : Type} (f : α → Bool) :
    ∀ (pre : List α) (r : α) (post : List α),
    (∀ x ∈ pre, f x = false) → f r = true →
    (pre ++ r :: post).find? f = some r
  | [], r, post, _, hr => by
    simp [List.find?_cons_of_pos, hr]
  | x :: xs, r, post, hpre, hr => by
    rw [List.cons_append,
      List.find?_cons_of_neg _ (by simp [hpre x (List.mem_cons_self x xs)])]
    exact find?_first f xs r post
      (fun y hy => hpre y (List.mem_cons_of_mem x hy)) hr

/-- C8: infer_study_type is total with no failure mode: it always returns
either a rule label or "unknown"; when the rules are split around one
whose patterns match while no earlier rule matches, that rule's label is
returned; and when no rule matches the result is "unknown". -/
theorem C8_infer_study_type_total (p : CandidatePaper) :
    (infer_study_type p = "unknown" ∨
      ∃ r ∈ STUDY_PATTERNS, infer_study_type p = r.1) ∧
    (∀ pre r post, STUDY_PATTERNS = pre ++ r :: post →
      (∀ r' ∈ pre, ruleMatches r' p = false) → ruleMatches r p = true →
      infer_study_type p = r.1) ∧
    ((∀ r ∈ STUDY_PATTERNS, ruleMatches r p = false) →
      infer_study_type p = "unknown") := by
  refine ⟨?_, ?_, ?_⟩
  · cases hf : STUDY_PATTERNS.find? (fun r => ruleMatches r p) with
    | none => left; simp [infer_study_type, hf]
    | some r =>
      right
      exact ⟨r, List.mem_of_find?_eq_some hf, by simp [infer_study_type, hf]⟩
  · intro pre r post heq hpre hr
    unfold infer_study_type
    rw [heq, find?_first _ pre r post hpre hr]
  · intro h
    unfold infer_study_type
    rw [List.find?_eq_none.2 (fun x hx => by simp [h x hx])]

/-- C8 witness: the third rule fires for paperR after the first two fail,
and no rule fires for paperZ. -/
theorem C8_infer_study_type_total_witness :
    infer_study_type paperR = "randomized controlled trial" ∧
    infer_study_type paperZ = "unknown" :=
  ⟨(C8_infer_study_type_total paperR).2.1 (STUDY_PATTERNS.take 2)
      (STUDY_PATTERNS[2]) (STUDY_PATTERNS.drop 3)
      (by decide) (by decide) (by decide),
   (C8_infer_study_type_total paperZ).2.2 (by decide)⟩

theorem dictLookup_insert_self (k : String) (v : Int) :
    ∀ d : List (String × Int), dictLookup k (dictInsert k v d) = some v
  | [] => by
    unfold dictInsert dictLookup
    rw [List.find?_cons_of_pos _ (by simp)]
    rfl
  | e :: rest => by
    unfold dictInsert
    by_cases h : e.1 = k
    · rw [if_pos h]
      unfold dictLookup
      rw [List.find?_cons_of_pos _ (by simp)]
      rfl
    · rw [if_neg h]
      unfold dictLookup
      rw [List.find?_cons_of_neg _ (by simpa using h)]
      exact dictLookup_insert_self k v rest

theorem dictLookup_insert_ne (t k : String) (v : Int) (h : t ≠ k) :
    ∀ d : List (String × Int), dictLookup t (dictInsert k v d) = dictLookup t d
  | [] => by
    unfold dictInsert dictLookup
    rw [List.find?_cons_of_neg _ ?hkt]
    case hkt =>
      simp only [beq_iff_eq]
      exact fun x => h x.symm
  | e :: rest => by
    unfold dictInsert
    by_cases he : e.1 = k
    · rw [if_pos he]
      unfold dictLookup
      rw [List.find?_cons_of_neg _ ?hkt, List.find?_cons_of_neg _ ?het]
      case hkt =>
        simp only [beq_iff_eq]
        exact fun x => h x.symm
      case het =>
        simp only [beq_iff_eq, he]
        exact fun x => h x.symm
    · rw [if_neg he]
      by_cases ht : e.1 = t
      · unfold dictLookup
        rw [List.find?_cons_of_pos _ (by simpa using ht),
          List.find?_cons_of_pos _ (by simpa using ht)]
      · unfold dictLookup
        rw [List.find?_cons_of_neg _ (by simpa using ht),
          List.find?_cons_of_neg _ (by simpa using ht)]
        exact dictLookup_insert_ne t k v h rest

theorem foldl_step_sum (text key : String) :
    ∀ (l : List String) (s : Int),
    l.foldl (fun s kw0 =>
      if lowerStr (stripStr kw0) = "" then s
      else if inStr (lowerStr (stripStr kw0)) text then
        s + (if lowerStr (stripStr kw0) = key then 250 else 100)
      else s) s =
    s + (l.map (fun kw0 =>
      if lowerStr (stripStr kw0) = "" then 0
      else if inStr (lowerStr (stripStr kw0)) text then
        (if lowerStr (stripStr kw0) = key then 250 else 100)
      else 0)).sum
  | [], s => by simp
  | kw0 :: l, s => by
    rw [List.foldl_cons, foldl_step_sum text key l, List.map_cons, List.sum_cons]
    split_ifs <;> omega

theorem topicScore_eq_spec (p : CandidatePaper) (cfg : AppConfig) (topic : String) :
    topicScore p cfg topic = topicScoreSpec p cfg topic := by
  simp only [topicScore, topicScoreSpec]
  rw [foldl_step_sum (paperText p) (lowerStr topic)]
  split_ifs <;> omega

theorem match_topics_lookup (p : CandidatePaper) (cfg : AppConfig) :
    ∀ (ts : List String) (d : List (String × Int)) (t : String),
    dictLookup t (ts.foldl (fun d topic =>
      let score := topicScore p cfg topic
      if score > 0 then dictInsert topic score d else d) d) =
    if t ∈ ts ∧ 0 < topicScore p cfg t then some (topicScore p cfg t)
    else dictLookup t d
  | [], d, t => by simp
  | topic :: rest, d, t => by
    rw [List.foldl_cons, match_topics_lookup p cfg rest _ t]
    by_cases hmem : t ∈ rest ∧ 0 < topicScore p cfg t
    · rw [if_pos hmem, if_pos ⟨List.mem_cons_of_mem topic hmem.1, hmem.2⟩]
    · rw [if_neg hmem]
      dsimp only
      by_cases heq : topic = t
      · subst heq
        by_cases hpos : topicScore p cfg topic > 0
        · rw [if_pos hpos, dictLookup_insert_self,
            if_pos ⟨List.mem_cons_self topic rest, hpos⟩]
        · rw [if_neg hpos, if_neg]
          intro hc
          exact hpos hc.2
      · by_cases hpos : topicScore p cfg topic > 0
        · rw [if_pos hpos, dictLookup_insert_ne t topic _ (fun x => heq x.symm),
            if_neg]
          intro hc
          rcases List.mem_cons.1 hc.1 with h | h
          · exact heq h.symm
          · exact hmem ⟨h, hc.2⟩
        · rw [if_neg hpos, if_neg]
          intro hc
          rcases List.mem_cons.1 hc.1 with h | h
          · exact heq h.symm
          · exact hmem ⟨h, hc.2⟩

/-- C7 (amended): for every candidate, configuration and topic, the
mapping returned by match_topics holds exactly the configured topics
whose per-topic score is positive, and that score is the per-keyword sum
with each keyword stripped and lowercased first (empty keywords skipped,
label comparisons against the lowercased topic, 250 for the
label-keyword, 100 otherwise, plus 150 when the lowercased label occurs
in the text). -/
theorem C7_match_topics_characterization (p : CandidatePaper) (cfg : AppConfig)
    (t : String) :
    dictLookup t (match_topics p cfg) =
    if t ∈ cfg.TOPICS ∧ 0 < topicScoreSpec p cfg t
    then some (topicScoreSpec p cfg t) else none := by
  unfold match_topics
  rw [match_topics_lookup p cfg cfg.TOPICS [] t, topicScore_eq_spec]
  rfl

/-- C7 counterexample: under cfgX (keyword "X" for topic "t") the code
matches topic "t" for paperX (title "x") with score 100, while the claim
formula taken literally (keywords matched verbatim against the
lowercased text) accumulates 0, so the claim says "t" is omitted. -/
theorem C7_counterexample :
    dictLookup "t" (match_topics paperX cfgX) = some 100 ∧
    topicScoreLiteral paperX cfgX "t" = 0 := by decide

/-! ## Human-evidence noninterference -/

theorem scoreAux_he (q : CandidatePaper) (h : String) (cfg : AppConfig) (now : Int) :
    scoreAux (heSet q h) cfg now = scoreAux q cfg now := rfl

theorem score_candidate_he (p : CandidatePaper) (h : String) (cfg : AppConfig)
    (now : Int) :
    (score_candidate (heSet p h) cfg now).2 = (score_candidate p cfg now).2 := rfl

theorem prefilteredOut_he (p : CandidatePaper) (h : String) (sd st : List String) :
    prefilteredOut (heSet p h) sd st = prefilteredOut p sd st := rfl

theorem processPaper_he (p : CandidatePaper) (h : String) (cfg : AppConfig)
    (now : Int) :
    processPaper (heSet p h) cfg now =
      (heSet (processPaper p cfg now).1 h,
       (processPaper p cfg now).2.1, (processPaper p cfg now).2.2) := by
  have hsc : scoreAux
        { heSet p h with study_type := infer_study_type (heSet p h) } cfg now =
      scoreAux { p with study_type := infer_study_type p } cfg now := rfl
  simp only [processPaper]
  rw [hsc]
  split_ifs with h1
  · rfl
  · rfl

theorem insertDesc_map {α β : Type} (key : α → Int) (key2 : β → Int) (g : β → α)
    (hk : ∀ x, key (g x) = key2 x) (x : β) :
    ∀ l : List β, insertDesc key (g x) (l.map g) = (insertDesc key2 x l).map g
  | [] => rfl
  | y :: ys => by
    simp only [List.map_cons, insertDesc, hk]
    by_cases h : key2 y ≤ key2 x
    · rw [if_pos h, if_pos h]
      simp
    · rw [if_neg h, if_neg h]
      simp only [List.map_cons, List.cons.injEq, true_and]
      exact insertDesc_map key key2 g hk x ys

theorem sortByDesc_map {α β : Type} (key : α → Int) (key2 : β → Int) (g : β → α)
    (hk : ∀ x, key (g x) = key2 x) :
    ∀ l : List β, sortByDesc key (l.map g) = (sortByDesc key2 l).map g
  | [] => rfl
  | x :: xs => by
    simp only [List.map_cons, sortByDesc]
    rw [sortByDesc_map key key2 g hk xs]
    exact insertDesc_map key key2 g hk x (sortByDesc key2 xs)

theorem rankedOf_he (candidates : List CandidatePaper) (h : String)
    (cfg : AppConfig) (sd st : List String) (now : Int) :
    rankedOf (candidates.map (fun p => heSet p h)) cfg sd st now =
      (rankedOf candidates cfg sd st now).map (fun r => heSetR r h) := by
  unfold rankedOf
  rw [List.filterMap_map]
  have hfun : (fun p : CandidatePaper =>
      if prefilteredOut (heSet p h) sd st then none
      else
        if (processPaper (heSet p h) cfg now).2.1 ≤ 0 then none
        else some (⟨(processPaper (heSet p h) cfg now).1,
          (processPaper (heSet p h) cfg now).2.2⟩ : RankedPaper)) =
      (fun p : CandidatePaper => Option.map (fun r => heSetR r h)
        (if prefilteredOut p sd st then none
         else
          if (processPaper p cfg now).2.1 ≤ 0 then none
          else some ⟨(processPaper p cfg now).1, (processPaper p cfg now).2.2⟩)) := by
    funext p
    rw [prefilteredOut_he, processPaper_he]
    by_cases h1 : prefilteredOut p sd st
    · rw [if_pos h1, if_pos h1]
      rfl
    · rw [if_neg h1, if_neg h1]
      by_cases h2 : (processPaper p cfg now).2.1 ≤ 0
      · rw [if_pos h2, if_pos h2]
        rfl
      · rw [if_neg h2, if_neg h2]
        rfl
  have hcomp : ((fun p : CandidatePaper =>
      if prefilteredOut p sd st then none
      else
        if (processPaper p cfg now).2.1 ≤ 0 then none
        else some (⟨(processPaper p cfg now).1,
          (processPaper p cfg now).2.2⟩ : RankedPaper)) ∘ (fun p => heSet p h)) =
      (fun p : CandidatePaper =>
        if prefilteredOut (heSet p h) sd st then none
        else
          if (processPaper (heSet p h) cfg now).2.1 ≤ 0 then none
          else some ⟨(processPaper (heSet p h) cfg now).1,
            (processPaper (heSet p h) cfg now).2.2⟩) := rfl
  rw [hcomp, hfun, ← List.map_filterMap]
  exact sortByDesc_map _ _ _ (fun x => rfl) _

theorem tryAdd_he (cfg : AppConfig) (st : SelState) (c : RankedPaper) (h : String) :
    tryAdd cfg (heSetSt st h) (heSetR c h) =
      (heSetSt (tryAdd cfg st c).1 h, (tryAdd cfg st c).2) := by
  unfold tryAdd
  have hkey : (heSetR c h).paper.dedupeKey = c.paper.dedupeKey := rfl
  have hkeys : (heSetSt st h).keys = st.keys := rfl
  have hlen : (heSetSt st h).selected.length = st.selected.length := by
    simp [heSetSt]
  rw [hkey, hkeys, hlen]
  by_cases h1 : st.keys.contains c.paper.dedupeKey
  · rw [if_pos h1, if_pos h1]
  · rw [if_neg h1, if_neg h1]
    by_cases h2 : cfg.MAX_PAPERS_PER_WEEK ≤ st.selected.length
    · rw [if_pos h2, if_pos h2]
    · rw [if_neg h2, if_neg h2]
      simp [heSetSt]

theorem addUpTo_he (cfg : AppConfig) (h : String) :
    ∀ (l : List RankedPaper) (st : SelState),
    addUpTo cfg (heSetSt st h) (l.map (fun c => heSetR c h)) =
      heSetSt (addUpTo cfg st l) h
  | [], st => rfl
  | c :: cs, st => by
    simp only [List.map_cons]
    unfold addUpTo
    rw [tryAdd_he]
    by_cases hb : (tryAdd cfg st c).2
    · rw [if_pos hb, if_pos hb]
      exact addUpTo_he cfg h cs (tryAdd cfg st c).1
    · rw [if_neg hb, if_neg hb]

theorem phase1Step_he (cfg : AppConfig) (ranked : List RankedPaper)
    (st : SelState) (topic : String) (h : String) :
    phase1Step cfg (ranked.map (fun c => heSetR c h)) (heSetSt st h) topic =
      heSetSt (phase1Step cfg ranked st topic) h := by
  simp only [phase1Step]
  have hkeys : (heSetSt st h).keys = st.keys := rfl
  rw [hkeys, List.filter_map]
  have hpred : ((fun c : RankedPaper =>
      c.paper.topic_tags.contains topic && !st.keys.contains c.paper.dedupeKey) ∘
        (fun c => heSetR c h)) =
      (fun c : RankedPaper =>
        c.paper.topic_tags.contains topic && !st.keys.contains c.paper.dedupeKey) := rfl
  rw [hpred, ← List.map_take]
  exact addUpTo_he cfg h _ st

theorem phase1_he (cfg : AppConfig) (ranked : List RankedPaper) (h : String) :
    ∀ (topics : List String) (st : SelState),
    phase1 cfg (ranked.map (fun c => heSetR c h)) (heSetSt st h) topics =
      heSetSt (phase1 cfg ranked st topics) h
  | [], st => rfl
  | t :: ts, st => by
    unfold phase1
    rw [List.foldl_cons, List.foldl_cons, phase1Step_he]
    exact phase1_he cfg ranked h ts (phase1Step cfg ranked st t)

theorem phase2_he (cfg : AppConfig) (h : String) :
    ∀ (ranked : List RankedPaper) (st : SelState),
    phase2 cfg (heSetSt st h) (ranked.map (fun c => heSetR c h)) =
      heSetSt (phase2 cfg st ranked) h
  | [], st => rfl
  | c :: cs, st => by
    unfold phase2
    rw [List.map_cons, List.foldl_cons, List.foldl_cons]
    have hlen : (heSetSt st h).selected.length = st.selected.length := by
      simp [heSetSt]
    rw [hlen]
    by_cases h1 : cfg.MAX_PAPERS_PER_WEEK ≤ st.selected.length
    · rw [if_pos h1, if_pos h1]
      exact phase2_he cfg h cs st
    · rw [if_neg h1, if_neg h1]
      have := tryAdd_he cfg st c h
      rw [show (tryAdd cfg (heSetSt st h) (heSetR c h)).1 =
          heSetSt (tryAdd cfg st c).1 h by rw [this]]
      exact phase2_he cfg h cs (tryAdd cfg st c).1

theorem select_papers_he (candidates : List CandidatePaper) (cfg : AppConfig)
    (sd st : List String) (now : Int) (h : String) :
    select_papers (candidates.map (fun p => heSet p h)) cfg sd st now =
      (select_papers candidates cfg sd st now).map (fun r => heSetR r h) := by
  simp only [select_papers]
  rw [rankedOf_he]
  have main : ∀ R : List RankedPaper,
      sortByDesc (fun r => r.paper.score)
        (phase2 cfg (phase1 cfg (R.map (fun c => heSetR c h))
            (heSetSt ⟨[], []⟩ h) cfg.TOPICS)
          (R.map (fun c => heSetR c h))).selected =
      (sortByDesc (fun r => r.paper.score)
        (phase2 cfg (phase1 cfg R ⟨[], []⟩ cfg.TOPICS) R).selected).map
        (fun r => heSetR r h) := by
    intro R
    rw [phase1_he, phase2_he]
    have hsel : (heSetSt (phase2 cfg (phase1 cfg R ⟨[], []⟩ cfg.TOPICS) R)
        h).selected =
        (phase2 cfg (phase1 cfg R ⟨[], []⟩ cfg.TOPICS) R).selected.map
          (fun r => heSetR r h) := rfl
    rw [hsel]
    exact sortByDesc_map _ _ _ (fun x => rfl) _
  exact main (rankedOf candidates cfg sd st now)

/-- C9 (amended): the core never reads human_evidence — score_candidate's
score and breakdown are invariant under it, and select_papers merely
carries the field through (its output on inputs with the field rewritten
is the pointwise rewrite of its original output); the HUMAN requirement
of the "human studies only" policy is enforced by the pipeline's
exclusion step outside the core. -/
theorem C9_human_evidence_outside_core :
    (∀ (p : CandidatePaper) (cfg : AppConfig) (now : Int) (h : String),
      (score_candidate (heSet p h) cfg now).2 = (score_candidate p cfg now).2) ∧
    (∀ (candidates : List CandidatePaper) (cfg : AppConfig)
      (sd st : List String) (now : Int) (h : String),
      select_papers (candidates.map (fun p => heSet p h)) cfg sd st now =
        (select_papers candidates cfg sd st now).map (fun r => heSetR r h)) ∧
    (∀ (cfg : AppConfig) (p : CandidatePaper),
      cfg.HUMAN_STUDIES_ONLY = true → p.human_evidence ≠ "HUMAN" →
      passesExclusions cfg p = false) := by
  refine ⟨fun p cfg now h => score_candidate_he p h cfg now,
    fun candidates cfg sd st now h => select_papers_he candidates cfg sd st now h,
    ?_⟩
  intro cfg p hcfg hne
  simp only [passesExclusions]
  split_ifs with h1 h2 h3 h4
  · rfl
  · rfl
  · rfl
  · rfl
  · exfalso
    apply h4
    rw [hcfg]
    simpa using hne

/-- C9 counterexample: the claim asserts the Scorer's result depends on
human_evidence (two candidates differing only in this field with
different scoring output); no such pair exists. -/
theorem C9_counterexample :
    ¬ ∃ (p : CandidatePaper) (h : String) (cfg : AppConfig) (now : Int),
      (score_candidate (heSet p h) cfg now).2 ≠ (score_candidate p cfg now).2 := by
  rintro ⟨p, h, cfg, now, hne⟩
  exact hne (score_candidate_he p h cfg now)

/-- C9 witness: the amended theorem applied at concrete inputs, with the
pipeline-exclusion hypotheses discharged at cfgA and paperA. -/
theorem C9_human_evidence_outside_core_witness :
    (score_candidate (heSet paperA "HUMAN") cfgA 0).2 =
      (score_candidate paperA cfgA 0).2 ∧
    passesExclusions cfgA paperA = false :=
  ⟨C9_human_evidence_outside_core.1 paperA cfgA 0 "HUMAN",
   C9_human_evidence_outside_core.2.2 cfgA paperA rfl (by decide)⟩

/-- C10: the scoring pass writes only the derived fields — every other
candidate field survives netEffect unchanged; a pre-filtered candidate is
untouched; a scored candidate with non-positive score receives only
study_type; a positively scored candidate receives exactly study_type,
topic_tags and score. -/
theorem C10_core_writes_only_derived_fields (p : CandidatePaper)
    (cfg : AppConfig) (sd st : List String) (now : Int) :
    ((netEffect p cfg sd st now).title = p.title ∧
     (netEffect p cfg sd st now).authors = p.authors ∧
     (netEffect p cfg sd st now).journal = p.journal ∧
     (netEffect p cfg sd st now).publication_date = p.publication_date ∧
     (netEffect p cfg sd st now).doi = p.doi ∧
     (netEffect p cfg sd st now).abstract = p.abstract ∧
     (netEffect p cfg sd st now).source = p.source ∧
     (netEffect p cfg sd st now).open_access_status = p.open_access_status ∧
     (netEffect p cfg sd st now).link = p.link ∧
     (netEffect p cfg sd st now).extra_links = p.extra_links ∧
     (netEffect p cfg sd st now).peer_reviewed = p.peer_reviewed ∧
     (netEffect p cfg sd st now).human_evidence = p.human_evidence) ∧
    (prefilteredOut p sd st = true → netEffect p cfg sd st now = p) ∧
    (prefilteredOut p sd st = false → (score_candidate p cfg now).2.1 ≤ 0 →
      netEffect p cfg sd st now = { p with study_type := infer_study_type p }) ∧
    (prefilteredOut p sd st = false → 0 < (score_candidate p cfg now).2.1 →
      netEffect p cfg sd st now = { p with
        study_type := infer_study_type p,
        topic_tags := sortTags (match_topics
          { p with study_type := infer_study_type p } cfg),
        score := (score_candidate p cfg now).2.1 }) := by
  have hss : (score_candidate p cfg now).2.1 =
      (scoreAux { p with study_type := infer_study_type p } cfg now).1 := rfl
  by_cases hpre : prefilteredOut p sd st
  · have hne : netEffect p cfg sd st now = p := by simp [netEffect, hpre]
    rw [hne]
    refine ⟨⟨rfl, rfl, rfl, rfl, rfl, rfl, rfl, rfl, rfl, rfl, rfl, rfl⟩,
      fun _ => rfl, ?_, ?_⟩
    · intro hc
      rw [hpre] at hc
      simp at hc
    · intro hc
      rw [hpre] at hc
      simp at hc
  · have hne : netEffect p cfg sd st now = (processPaper p cfg now).1 := by
      simp [netEffect, hpre]
    rw [hne]
    obtain ⟨f1, f2, f3, f4, f5, f6, f7, f8, f9, f10, f11, f12⟩ :=
      processPaper_frame p cfg now
    refine ⟨⟨f1, f2, f3, f4, f5, f6, f7, f8, f9, f10, f11, f12⟩, ?_, ?_, ?_⟩
    · intro hc
      exact absurd hc hpre
    · intro _ hs
      rw [hss] at hs
      simp only [processPaper]
      rw [if_pos hs]
    · intro _ hs
      rw [hss] at hs
      simp only [processPaper]
      rw [if_neg (not_le.mpr hs)]
      exact rfl

/-- C10 witness: the case clauses applied at a pre-filtered candidate and
at a positively scored one. -/
theorem C10_core_writes_only_derived_fields_witness :
    netEffect paperNP cfgA [] [] 0 = paperNP ∧
    netEffect paperA cfgA [] [] 0 = { paperA with
      study_type := infer_study_type paperA,
      topic_tags := sortTags (match_topics
        { paperA with study_type := infer_study_type paperA } cfgA),
      score := (score_candidate paperA cfgA 0).2.1 } :=
  ⟨(C10_core_writes_only_derived_fields paperNP cfgA [] [] 0).2.1 (by decide),
   (C10_core_writes_only_derived_fields paperA cfgA [] [] 0).2.2.2
     (by decide) (by decide)⟩

/-! ## Counting lemmas for the per-topic minimum -/

theorem countP_and_split {α : Type} (p q : α → Bool) :
    ∀ l : List α, l.countP p =
      l.countP (fun a => p a && q a) + l.countP (fun a => p a && !q a)
  | [] => rfl
  | x :: xs => by
    rw [List.countP_cons, List.countP_cons, List.countP_cons,
      countP_and_split p q xs]
    cases hp : p x <;> cases hq : q x <;> simp [hp, hq] <;> omega

theorem eq_of_pairwise_key {α β : Type} (key : α → β) :
    ∀ {l : List α}, l.Pairwise (fun a b => key a ≠ key b) →
    ∀ {a b : α}, a ∈ l → b ∈ l → key a = key b → a = b := by
  intro l hl
  induction hl with
  | nil =>
    intro a b ha _ _
    cases ha
  | @cons x l2 hx hxs ih =>
    intro a b ha hb hk
    rcases List.mem_cons.1 ha with rfl | ha2
    · rcases List.mem_cons.1 hb with rfl | hb2
      · rfl
      · exact absurd hk (hx b hb2)
    · rcases List.mem_cons.1 hb with rfl | hb2
      · exact absurd hk.symm (hx a ha2)
      · exact ih ha2 hb2 hk

theorem countP_inkeys_le (tagged : RankedPaper → Bool) (R S : List RankedPaper)
    (hR : R.Pairwise (fun a b => a.paper.dedupeKey ≠ b.paper.dedupeKey))
    (hsub : ∀ s ∈ S, s ∈ R) :
    R.countP (fun c => tagged c &&
      (S.map (fun r => r.paper.dedupeKey)).contains c.paper.dedupeKey) ≤
    S.countP tagged := by
  have hAnodup : ((R.filter (fun c => tagged c &&
      (S.map (fun r => r.paper.dedupeKey)).contains c.paper.dedupeKey)).map
        (fun r => r.paper.dedupeKey)).Nodup := by
    rw [List.Nodup, List.pairwise_map]
    exact List.Pairwise.filter _ hR
  have hsubAB : ((R.filter (fun c => tagged c &&
      (S.map (fun r => r.paper.dedupeKey)).contains c.paper.dedupeKey)).map
        (fun r => r.paper.dedupeKey)) ⊆
      (S.filter tagged).map (fun r => r.paper.dedupeKey) := by
    intro k hk
    obtain ⟨c, hcf, rfl⟩ := List.mem_map.1 hk
    obtain ⟨hcR, hpred⟩ := List.mem_filter.1 hcf
    rw [Bool.and_eq_true] at hpred
    obtain ⟨htag, hcont⟩ := hpred
    have hmemk : c.paper.dedupeKey ∈ S.map (fun r => r.paper.dedupeKey) := by
      simpa using hcont
    obtain ⟨s, hsS, hks⟩ := List.mem_map.1 hmemk
    have hsc : s = c := eq_of_pairwise_key _ hR (hsub s hsS) hcR hks
    subst hsc
    exact List.mem_map.2 ⟨s, List.mem_filter.2 ⟨hsS, htag⟩, rfl⟩
  have hlen := (List.subperm_of_subset hAnodup hsubAB).length_le
  rw [List.length_map, List.length_map] at hlen
  rw [List.countP_eq_length_filter, List.countP_eq_length_filter]
  exact hlen

theorem rankedOf_pairwise {candidates : List CandidatePaper} {cfg : AppConfig}
    {sd st : List String} {now : Int}
    (hdk : candidates.Pairwise (fun a b => a.dedupeKey ≠ b.dedupeKey)) :
    (rankedOf candidates cfg sd st now).Pairwise
      (fun a b => a.paper.dedupeKey ≠ b.paper.dedupeKey) := by
  unfold rankedOf
  have hsym : ∀ {x y : RankedPaper},
      x.paper.dedupeKey ≠ y.paper.dedupeKey →
      y.paper.dedupeKey ≠ x.paper.dedupeKey := fun h he => h he.symm
  apply (List.Perm.pairwise_iff hsym (sortByDesc_perm _ _)).2
  apply List.Pairwise.filterMap _ ?H hdk
  case H =>
    intro a a' hne b hb b' hb'
    have hkey : ∀ (p : CandidatePaper) (x : RankedPaper),
        x ∈ (if prefilteredOut p sd st then none
          else
            if (processPaper p cfg now).2.1 ≤ 0 then none
            else some (⟨(processPaper p cfg now).1,
              (processPaper p cfg now).2.2⟩ : RankedPaper)) →
        x.paper.dedupeKey = p.dedupeKey := by
      intro p x hx
      by_cases h1 : prefilteredOut p sd st
      · rw [if_pos h1] at hx
        cases hx
      · rw [if_neg h1] at hx
        by_cases h2 : (processPaper p cfg now).2.1 ≤ 0
        · rw [if_pos h2] at hx
          cases hx
        · rw [if_neg h2] at hx
          have hx2 : x = ⟨(processPaper p cfg now).1,
              (processPaper p cfg now).2.2⟩ := by
            cases hx
            rfl
          rw [hx2]
          exact processPaper_dedupeKey p cfg now
    rw [hkey a b hb, hkey a' b' hb']
    exact hne

theorem addUpTo_all (cfg : AppConfig) :
    ∀ (l : List RankedPaper) (st : SelState),
    l.Pairwise (fun a b => a.paper.dedupeKey ≠ b.paper.dedupeKey) →
    (∀ c ∈ l, st.keys.contains c.paper.dedupeKey = false) →
    st.selected.length + l.length ≤ cfg.MAX_PAPERS_PER_WEEK →
    addUpTo cfg st l =
      ⟨st.selected ++ l, st.keys ++ l.map (fun c => c.paper.dedupeKey)⟩
  | [], st, _, _, _ => by simp [addUpTo]
  | c :: cs, st, hpw, hnew, hcap => by
    have hadd : tryAdd cfg st c =
        (⟨st.selected ++ [c], st.keys ++ [c.paper.dedupeKey]⟩, true) := by
      rcases tryAdd_eq cfg st c with ⟨_, hor⟩ | ⟨he, _, _⟩
      · exfalso
        rcases hor with h | h
        · rw [hnew c (List.mem_cons_self c cs)] at h
          cases h
        · simp only [List.length_cons] at hcap
          omega
      · exact he
    have hpwtail := (List.pairwise_cons.1 hpw).2
    have hhead := (List.pairwise_cons.1 hpw).1
    have hrec := addUpTo_all cfg cs
      ⟨st.selected ++ [c], st.keys ++ [c.paper.dedupeKey]⟩ hpwtail
      (by
        intro x hx
        have h1 : ¬ x.paper.dedupeKey ∈ st.keys := by
          simpa using hnew x (List.mem_cons_of_mem c hx)
        have h2 : ¬ x.paper.dedupeKey = c.paper.dedupeKey :=
          fun he => hhead x hx he.symm
        simp [h1, h2])
      (by
        simp only [List.length_append, List.length_cons, List.length_nil]
        simp only [List.length_cons] at hcap
        omega)
    unfold addUpTo
    rw [hadd]
    show addUpTo cfg ⟨st.selected ++ [c], st.keys ++ [c.paper.dedupeKey]⟩ cs = _
    rw [hrec]
    simp [List.append_assoc]

theorem phase1Step_count {cfg : AppConfig} {ranked : List RankedPaper}
    {st : SelState} {T : String}
    (hgood : GoodState cfg ranked st)
    (hR : ranked.Pairwise (fun a b => a.paper.dedupeKey ≠ b.paper.dedupeKey))
    (hq : cfg.MIN_PAPERS_PER_TOPIC ≤ ranked.countP (taggedWith T))
    (hcap : st.selected.length + cfg.MIN_PAPERS_PER_TOPIC ≤
      cfg.MAX_PAPERS_PER_WEEK) :
    cfg.MIN_PAPERS_PER_TOPIC ≤
      ((phase1Step cfg ranked st T).selected.countP (taggedWith T)) := by
  obtain ⟨hk, _, hmem, _⟩ := hgood
  have hfpw : (ranked.filter (fun c =>
      c.paper.topic_tags.contains T &&
        !st.keys.contains c.paper.dedupeKey)).Pairwise
      (fun a b => a.paper.dedupeKey ≠ b.paper.dedupeKey) :=
    List.Pairwise.filter _ hR
  have htpw : ((ranked.filter (fun c =>
      c.paper.topic_tags.contains T &&
        !st.keys.contains c.paper.dedupeKey)).take
        cfg.MIN_PAPERS_PER_TOPIC).Pairwise
      (fun a b => a.paper.dedupeKey ≠ b.paper.dedupeKey) :=
    List.Pairwise.sublist (List.take_sublist _ _) hfpw
  have hnew : ∀ c ∈ (ranked.filter (fun c =>
      c.paper.topic_tags.contains T &&
        !st.keys.contains c.paper.dedupeKey)).take cfg.MIN_PAPERS_PER_TOPIC,
      st.keys.contains c.paper.dedupeKey = false := by
    intro c hc
    have hcf := (List.take_sublist _ _).subset hc
    have hpred := (List.mem_filter.1 hcf).2
    rw [Bool.and_eq_true] at hpred
    simpa using hpred.2
  have hcap2 : st.selected.length + ((ranked.filter (fun c =>
      c.paper.topic_tags.contains T &&
        !st.keys.contains c.paper.dedupeKey)).take
        cfg.MIN_PAPERS_PER_TOPIC).length ≤ cfg.MAX_PAPERS_PER_WEEK := by
    rw [List.length_take]
    have := Nat.min_le_left cfg.MIN_PAPERS_PER_TOPIC
      (ranked.filter (fun c => c.paper.topic_tags.contains T &&
        !st.keys.contains c.paper.dedupeKey)).length
    omega
  have hall := addUpTo_all cfg _ st htpw hnew hcap2
  simp only [phase1Step]
  rw [hall]
  have htagged : (((ranked.filter (fun c =>
      c.paper.topic_tags.contains T &&
        !st.keys.contains c.paper.dedupeKey)).take
        cfg.MIN_PAPERS_PER_TOPIC).countP (taggedWith T)) =
      (((ranked.filter (fun c => c.paper.topic_tags.contains T &&
        !st.keys.contains c.paper.dedupeKey)).take
        cfg.MIN_PAPERS_PER_TOPIC)).length := by
    rw [List.countP_eq_length]
    intro a ha
    have haf := (List.take_sublist _ _).subset ha
    have hpred := (List.mem_filter.1 haf).2
    rw [Bool.and_eq_true] at hpred
    exact hpred.1
  rw [List.countP_append, htagged, List.length_take]
  by_cases hbig : cfg.MIN_PAPERS_PER_TOPIC ≤ (ranked.filter (fun c =>
      c.paper.topic_tags.contains T &&
        !st.keys.contains c.paper.dedupeKey)).length
  · rw [Nat.min_eq_left hbig]
    omega
  · push_neg at hbig
    rw [Nat.min_eq_right (Nat.le_of_lt hbig)]
    have hsplit : ranked.countP (taggedWith T) =
        ranked.countP (fun c => taggedWith T c &&
          st.keys.contains c.paper.dedupeKey) +
        ranked.countP (fun c => taggedWith T c &&
          !st.keys.contains c.paper.dedupeKey) :=
      countP_and_split _ _ ranked
    have hfl : ranked.countP (fun c => taggedWith T c &&
        !st.keys.contains c.paper.dedupeKey) =
        (ranked.filter (fun c => c.paper.topic_tags.contains T &&
          !st.keys.contains c.paper.dedupeKey)).length := by
      rw [List.countP_eq_length_filter]
      rfl
    have hinkeys : ranked.countP (fun c => taggedWith T c &&
        st.keys.contains c.paper.dedupeKey) ≤
        st.selected.countP (taggedWith T) := by
      have hle := countP_inkeys_le (taggedWith T) ranked st.selected hR hmem
      rw [← hk] at hle
      exact hle
    omega

theorem tryAdd_count_mono (cfg : AppConfig) (st : SelState) (c : RankedPaper)
    (q : RankedPaper → Bool) :
    st.selected.countP q ≤ ((tryAdd cfg st c).1).selected.countP q := by
  rcases tryAdd_eq cfg st c with ⟨he, _⟩ | ⟨he, _, _⟩
  · rw [he]
  · rw [he]
    show st.selected.countP q ≤ (st.selected ++ [c]).countP q
    rw [List.countP_append]
    omega

theorem addUpTo_count_mono (cfg : AppConfig) (q : RankedPaper → Bool) :
    ∀ (l : List RankedPaper) (st : SelState),
    st.selected.countP q ≤ (addUpTo cfg st l).selected.countP q
  | [], st => Nat.le_refl _
  | c :: cs, st => by
    unfold addUpTo
    by_cases hb : (tryAdd cfg st c).2
    · rw [if_pos hb]
      exact Nat.le_trans (tryAdd_count_mono cfg st c q)
        (addUpTo_count_mono cfg q cs (tryAdd cfg st c).1)
    · rw [if_neg hb]
      exact tryAdd_count_mono cfg st c q

theorem phase1_count_mono (cfg : AppConfig) (ranked : List RankedPaper)
    (q : RankedPaper → Bool) :
    ∀ (topics : List String) (st : SelState),
    st.selected.countP q ≤ (phase1 cfg ranked st topics).selected.countP q
  | [], st => Nat.le_refl _
  | t :: ts, st => by
    unfold phase1
    rw [List.foldl_cons]
    refine Nat.le_trans ?_ (phase1_count_mono cfg ranked q ts (phase1Step cfg ranked st t))
    simp only [phase1Step]
    exact addUpTo_count_mono cfg q _ st

theorem phase2_count_mono (cfg : AppConfig) (q : RankedPaper → Bool) :
    ∀ (ranked : List RankedPaper) (st : SelState),
    st.selected.countP q ≤ (phase2 cfg st ranked).selected.countP q
  | [], st => Nat.le_refl _
  | c :: cs, st => by
    unfold phase2
    rw [List.foldl_cons]
    by_cases h1 : cfg.MAX_PAPERS_PER_WEEK ≤ st.selected.length
    · rw [if_pos h1]
      exact phase2_count_mono cfg q cs st
    · rw [if_neg h1]
      exact Nat.le_trans (tryAdd_count_mono cfg st c q)
        (phase2_count_mono cfg q cs (tryAdd cfg st c).1)

/-- C3 (amended): when the input candidates have pairwise distinct dedupe
keys, a topic T with at least MIN_PAPERS_PER_TOPIC qualifying entries in
the scoring pass, and enough remaining capacity when T's turn in the
first pass arrives, ends with at least MIN_PAPERS_PER_TOPIC entries
tagged T in the final selection. -/
theorem C3_topic_minimum (candidates : List CandidatePaper) (cfg : AppConfig)
    (sd st : List String) (now : Int) (T : String) (ts1 ts2 : List String)
    (hdk : candidates.Pairwise (fun a b => a.dedupeKey ≠ b.dedupeKey))
    (htopics : cfg.TOPICS = ts1 ++ T :: ts2)
    (hq : cfg.MIN_PAPERS_PER_TOPIC ≤
      (rankedOf candidates cfg sd st now).countP (taggedWith T))
    (hcap : (phase1 cfg (rankedOf candidates cfg sd st now) ⟨[], []⟩
        ts1).selected.length + cfg.MIN_PAPERS_PER_TOPIC ≤
      cfg.MAX_PAPERS_PER_WEEK) :
    cfg.MIN_PAPERS_PER_TOPIC ≤
      (select_papers candidates cfg sd st now).countP (taggedWith T) := by
  have hRpw : (rankedOf candidates cfg sd st now).Pairwise
      (fun a b => a.paper.dedupeKey ≠ b.paper.dedupeKey) :=
    rankedOf_pairwise hdk
  simp only [select_papers]
  rw [List.Perm.countP_eq _ (sortByDesc_perm _ _)]
  rw [htopics]
  have hsplit : phase1 cfg (rankedOf candidates cfg sd st now) ⟨[], []⟩
      (ts1 ++ T :: ts2) =
      phase1 cfg (rankedOf candidates cfg sd st now)
        (phase1Step cfg (rankedOf candidates cfg sd st now)
          (phase1 cfg (rankedOf candidates cfg sd st now) ⟨[], []⟩ ts1) T)
        ts2 := by
    unfold phase1
    rw [List.foldl_append, List.foldl_cons]
  rw [hsplit]
  have hgood1 : GoodState cfg (rankedOf candidates cfg sd st now)
      (phase1 cfg (rankedOf candidates cfg sd st now) ⟨[], []⟩ ts1) :=
    phase1_good initState_good
  have hstep := phase1Step_count hgood1 hRpw hq hcap
  have h1 := phase1_count_mono cfg (rankedOf candidates cfg sd st now)
    (taggedWith T) ts2
    (phase1Step cfg (rankedOf candidates cfg sd st now)
      (phase1 cfg (rankedOf candidates cfg sd st now) ⟨[], []⟩ ts1) T)
  have h2 := phase2_count_mono cfg (taggedWith T)
    (rankedOf candidates cfg sd st now)
    (phase1 cfg (rankedOf candidates cfg sd st now)
      (phase1Step cfg (rankedOf candidates cfg sd st now)
        (phase1 cfg (rankedOf candidates cfg sd st now) ⟨[], []⟩ ts1) T)
      ts2)
  omega

/-- C3 counterexample: two qualifying candidates sharing a dedupe key
collapse, so with MIN_PAPERS_PER_TOPIC = 2, two qualifying tagged
candidates and ample capacity the final selection still holds only one
entry tagged with the topic. -/
theorem C3_counterexample :
    cfgB.MIN_PAPERS_PER_TOPIC ≤
      (rankedOf [paperB, paperB] cfgB [] [] 0).countP
        (taggedWith "personality psychology") ∧
    (phase1 cfgB (rankedOf [paperB, paperB] cfgB [] [] 0) ⟨[], []⟩
        []).selected.length + cfgB.MIN_PAPERS_PER_TOPIC ≤
      cfgB.MAX_PAPERS_PER_WEEK ∧
    cfgB.TOPICS = [] ++ "personality psychology" :: [] ∧
    (select_papers [paperB, paperB] cfgB [] [] 0).countP
      (taggedWith "personality psychology") = 1 := by decide

/-- C3 witness: the amended theorem applied at a one-candidate input. -/
theorem C3_topic_minimum_witness :
    cfgA.MIN_PAPERS_PER_TOPIC ≤
      (select_papers [paperA] cfgA [] [] 0).countP
        (taggedWith "personality psychology") :=
  C3_topic_minimum [paperA] cfgA [] [] 0 "personality psychology" [] []
    (by decide) rfl (by decide) (by decide)
